import Mathlib

/-!
Verification of the TNB industrial bill extractor.

Shallow embedding of `src/app.py`: the regular-expression based field
extractor (`extract_data_from_text`), the numeric normalizer
(`clean_industrial_num`), the per-document reconciliation (`process_pdf`),
the cross-document aggregation (pandas `groupby(...).agg`) and the timeline
completion (`pd.date_range` + left merge + fillna).

Python floats are modelled as exact rationals (`ℚ`); all values produced by
the code are short decimal fractions, and every claim is about equality,
positivity, or maxima, where `ℚ` and IEEE doubles agree on the inputs in
question.  Text is modelled as `List Char`.

The Python `re` patterns used by the source only ever apply `*`/`+`/`*?`
to single character classes, so the engine below implements exactly that
fragment, with Python's backtracking preference order (leftmost start,
greedy stars longest-first, lazy stars shortest-first, alternation
left-first).
-/

namespace TNB

/-! ## A small backtracking regex engine (star restricted to classes) -/

inductive RE where
  | eps : RE
  | cls : (Char → Bool) → RE
  | seq : RE → RE → RE
  | alt : RE → RE → RE
  | starG : (Char → Bool) → RE
  | starL : (Char → Bool) → RE
  | group : Nat → RE → RE

abbrev Caps := List (Nat × List Char)

/-- All ways a regex can match a prefix of `cs`, in Python's backtracking
preference order; each result is the remaining suffix plus captures. -/
def runRE : RE → List Char → List (List Char × Caps)
  | RE.eps, cs => [(cs, [])]
  | RE.cls _, [] => []
  | RE.cls p, c :: cs => if p c then [(cs, [])] else []
  | RE.seq a b, cs =>
      (runRE a cs).flatMap (fun r =>
        (runRE b r.1).map (fun r2 => (r2.1, r.2 ++ r2.2)))
  | RE.alt a b, cs => runRE a cs ++ runRE b cs
  | RE.starG p, cs =>
      let run := cs.takeWhile p
      (List.range (run.length + 1)).map (fun k => (cs.drop (run.length - k), []))
  | RE.starL p, cs =>
      let run := cs.takeWhile p
      (List.range (run.length + 1)).map (fun k => (cs.drop k, []))
  | RE.group n a, cs =>
      (runRE a cs).map (fun r => (r.1, (n, cs.take (cs.length - r.1.length)) :: r.2))

/-- `re.search`: try each start position left to right, return the first
match as (start index, matched substring, captures). -/
def reSearchAux (r : RE) : List Char → Nat → Option (Nat × List Char × Caps)
  | [], i =>
      match runRE r [] with
      | x :: _ => some (i, [], x.2)
      | [] => none
  | c :: cs, i =>
      match runRE r (c :: cs) with
      | x :: _ => some (i, (c :: cs).take ((c :: cs).length - x.1.length), x.2)
      | [] => reSearchAux r cs (i + 1)

def capLookup (caps : Caps) (n : Nat) : Option (List Char) :=
  (caps.find? (fun e => e.1 == n)).map (fun e => e.2)

/-- `re.search(...)` returning `group(1)`. -/
def searchG1 (r : RE) (text : List Char) : Option (List Char) :=
  match reSearchAux r text 0 with
  | some x => some ((capLookup x.2.2 1).getD [])
  | none => none

/-- `re.finditer` / `re.findall`: non-overlapping matches, scanning left to
right, resuming after each match end. -/
def reFindAllAux (r : RE) : Nat → List Char → List (List Char × Caps)
  | 0, _ => []
  | Nat.succ fuel, cs =>
      match reSearchAux r cs 0 with
      | none => []
      | some x =>
          let m := x.2.1
          let used := x.1 + (if m.length = 0 then 1 else m.length)
          (m, x.2.2) :: reFindAllAux r fuel (cs.drop used)

def reFindAll (r : RE) (cs : List Char) : List (List Char × Caps) :=
  reFindAllAux r (cs.length + 1) cs

/-! ## Character classes and pattern-building helpers -/

def reSeqList (l : List RE) : RE := l.foldr RE.seq RE.eps

def rePlus (p : Char → Bool) : RE := RE.seq (RE.cls p) (RE.starG p)

/-- One char, case-insensitively (Python `re.IGNORECASE`). -/
def ichar (c : Char) : RE := RE.cls (fun d => d.toLower == c.toLower)

def istr (s : String) : RE := reSeqList (s.toList.map ichar)

/-- Python `\s` (ASCII range). -/
def wsC (c : Char) : Bool :=
  c == ' ' || c == '\t' || c == '\n' || c == '\r' || c == '\x0b' || c == '\x0c'

/-- Python `.` without `re.DOTALL`. -/
def dotNN (c : Char) : Bool := !(c == '\n')

/-- Python `.` with `re.DOTALL`. -/
def anyC (_ : Char) : Bool := true

def sepC (c : Char) : Bool := c == '.' || c == '/' || c == '-'

def numClass (c : Char) : Bool := c.isDigit || c == ',' || c == '.'

/-- Python `[\d\s,.]`. -/
def nwsC (c : Char) : Bool := c.isDigit || wsC c || c == ',' || c == '.'

def digitOrDot (c : Char) : Bool := c.isDigit || c == '.'

def isDotC (c : Char) : Bool := c == '.'

/-! ## The numeric normalizer `clean_industrial_num` (app.py lines 39-57) -/

/-- `[\d,.]*\d+\.\d{2}` -/
def P_num1 : RE :=
  reSeqList [RE.starG numClass, RE.cls Char.isDigit, RE.starG Char.isDigit,
    RE.cls isDotC, RE.cls Char.isDigit, RE.cls Char.isDigit]

/-- `[\d,.]+` -/
def P_num2 : RE := rePlus numClass

/-- The `re.search` pair in `clean_industrial_num`: the two-decimal form
first, then any digit/separator run. Returns `group(0)`. -/
def matchedNum (raw : List Char) : Option (List Char) :=
  match reSearchAux P_num1 raw 0 with
  | some x => some x.2.1
  | none =>
      match reSearchAux P_num2 raw 0 with
      | some x => some x.2.1
      | none => none

/-- Python `str.split('.')` (the result list is never empty, so prepending
to its head is total). -/
def splitDots : List Char → List (List Char)
  | [] => [[]]
  | c :: cs =>
      if c = '.' then [] :: splitDots cs
      else (c :: (splitDots cs).headD []) :: (splitDots cs).tail

/-- `"".join(parts[:-1]) + "." + parts[-1]` — keep only the last dot. -/
def fixMultiDot (s : List Char) : List Char :=
  let parts := splitDots s
  parts.dropLast.flatten ++ '.' :: parts.getLastD []

def digitsToNat (cs : List Char) : Nat :=
  cs.foldl (fun n c => 10 * n + (c.toNat - 48)) 0

/-- Python `float(...)` restricted to strings of digits and at most one
dot (the only shapes reaching it in `clean_industrial_num`): fails on `""`
and `"."`, otherwise exact decimal value. -/
def parseFloat? (cs : List Char) : Option ℚ :=
  let ip := cs.takeWhile (fun c => !(c == '.'))
  let rest := cs.dropWhile (fun c => !(c == '.'))
  match rest with
  | [] => if cs.isEmpty then none else some (mkRat (digitsToNat cs) 1)
  | _ :: frac =>
      if ip.isEmpty && frac.isEmpty then none
      else some (mkRat (digitsToNat ip * 10 ^ frac.length + digitsToNat frac) (10 ^ frac.length))

/-- app.py `clean_industrial_num`. -/
def clean_industrial_num (raw : List Char) : ℚ :=
  if raw = [] then 0
  else
    match matchedNum raw with
    | some m =>
        let s := m.filter digitOrDot
        let s2 := if 1 < s.count '.' then fixMultiDot s else s
        match parseFloat? s2 with
        | some q => q
        | none => 0
    | none => 0

/-! ## Dates (`datetime.strptime(raw, "%d.%m.%Y")` and `strftime("%b")`) -/

structure PDate where
  day : Nat
  month : Nat
  year : Nat
deriving DecidableEq

def isLeap (y : Nat) : Bool := (y % 4 == 0 && y % 100 != 0) || y % 400 == 0

def daysInMonth (m y : Nat) : Nat :=
  if m == 2 then (if isLeap y then 29 else 28)
  else if m == 4 || m == 6 || m == 9 || m == 11 then 30
  else 31

/-- `datetime.strptime(s, "%d.%m.%Y")` on the `dd.mm.yyyy` shapes produced
by the date regex (failure = `ValueError`, caught by the caller). -/
def strptimeDMY (cs : List Char) : Option PDate :=
  match cs with
  | [d1, d2, s1, m1, m2, s2, y1, y2, y3, y4] =>
      if d1.isDigit && d2.isDigit && s1 == '.' && m1.isDigit && m2.isDigit &&
         s2 == '.' && y1.isDigit && y2.isDigit && y3.isDigit && y4.isDigit then
        let d := digitsToNat [d1, d2]
        let m := digitsToNat [m1, m2]
        let y := digitsToNat [y1, y2, y3, y4]
        if 1 ≤ m ∧ m ≤ 12 ∧ 1 ≤ d ∧ d ≤ daysInMonth m y ∧ 1 ≤ y then
          some ⟨d, m, y⟩
        else none
      else none
  | _ => none

/-- `.replace('-', '.').replace('/', '.')` -/
def normSep (cs : List Char) : List Char :=
  cs.map (fun c => if c == '-' || c == '/' then '.' else c)

/-- `dt_obj.strftime("%b")` (C locale). -/
def monthAbbrev (m : Nat) : String :=
  match m with
  | 1 => "Jan" | 2 => "Feb" | 3 => "Mar" | 4 => "Apr" | 5 => "May" | 6 => "Jun"
  | 7 => "Jul" | 8 => "Aug" | 9 => "Sep" | 10 => "Oct" | 11 => "Nov" | 12 => "Dec"
  | _ => ""

/-! ## The extraction patterns of `extract_data_from_text` (app.py 59-139) -/

/-- `\d{2}[sep]\d{2}[sep]\d{4}` with `sep` one of dot, slash, dash -/
def dateRE : RE :=
  reSeqList [RE.cls Char.isDigit, RE.cls Char.isDigit, RE.cls sepC,
    RE.cls Char.isDigit, RE.cls Char.isDigit, RE.cls sepC,
    RE.cls Char.isDigit, RE.cls Char.isDigit, RE.cls Char.isDigit, RE.cls Char.isDigit]

/-- `Tempoh\s*Bil\s*:\s*.*?\s*(<date>)`, IGNORECASE. -/
def P_tempoh : RE :=
  reSeqList [istr "Tempoh", RE.starG wsC, istr "Bil", RE.starG wsC, ichar ':',
    RE.starG wsC, RE.starL dotNN, RE.starG wsC, RE.group 1 dateRE]

/-- `Tarikh\s*Bil(.*?)No\.\s*Invois`, IGNORECASE | DOTALL. -/
def P_header : RE :=
  reSeqList [istr "Tarikh", RE.starG wsC, istr "Bil", RE.group 1 (RE.starL anyC),
    istr "No", ichar '.', RE.starG wsC, istr "Invois"]

/-- `[\d\s,.]+\d{2}` (the two-decimal-ish capture used by the money rules). -/
def num2dd : RE :=
  reSeqList [rePlus nwsC, RE.cls Char.isDigit, RE.cls Char.isDigit]

/-- `Jumlah\s*Penggunaan\s*Anda\s*\(([\d\s,.]+)\s*kWh\)`, IGNORECASE. -/
def P_kwh_new : RE :=
  reSeqList [istr "Jumlah", RE.starG wsC, istr "Penggunaan", RE.starG wsC,
    istr "Anda", RE.starG wsC, ichar '(', RE.group 1 (rePlus nwsC),
    RE.starG wsC, istr "kWh", ichar ')']

/-- `Kegunaan\s*(?:kWh|KWH|kVVh).*?([\d\s,.]+\d{2})`, IGNORECASE | DOTALL. -/
def P_kwh_old : RE :=
  reSeqList [istr "Kegunaan", RE.starG wsC,
    RE.alt (istr "kWh") (RE.alt (istr "KWH") (istr "kVVh")),
    RE.starL anyC, RE.group 1 num2dd]

/-- `Caj\s*Semasa\s*(?:RM)?\s*([\d\s,.]+\d{2})`, IGNORECASE. -/
def P_rm_caj : RE :=
  reSeqList [istr "Caj", RE.starG wsC, istr "Semasa", RE.starG wsC,
    RE.alt (istr "RM") RE.eps, RE.starG wsC, RE.group 1 num2dd]

/-- `Jumlah\s*Perlu\s*Bayar.*?([\d\s,.]+\d{2})`, IGNORECASE | DOTALL. -/
def P_rm_jpb : RE :=
  reSeqList [istr "Jumlah", RE.starG wsC, istr "Perlu", RE.starG wsC,
    istr "Bayar", RE.starL anyC, RE.group 1 num2dd]

/-- `(?:Jumlah|Total|Caj).*?([\d\s,.]+\d{2})`, IGNORECASE | DOTALL. -/
def P_backup : RE :=
  reSeqList [RE.alt (istr "Jumlah") (RE.alt (istr "Total") (istr "Caj")),
    RE.starL anyC, RE.group 1 num2dd]

/-! ## Date cascade (methods A, B, C) -/

def findAllDates (cs : List Char) : List (List Char) :=
  (reFindAll dateRE cs).map (fun x => x.1)

def tryParseDate (g : List Char) : Option PDate := strptimeDMY (normSep g)

/-- Method A: the `Tempoh Bil` line. -/
def methodA (text : List Char) : Option PDate :=
  match searchG1 P_tempoh text with
  | some g => tryParseDate g
  | none => none

/-- Method B: header region between `Tarikh Bil` and `No. Invois`, second
date inside it. -/
def methodB (text : List Char) : Option PDate :=
  match searchG1 P_header text with
  | some region =>
      match findAllDates region with
      | _ :: d2 :: _ => tryParseDate d2
      | _ => none
  | none => none

/-- Method C: second date-like token anywhere in the text. -/
def methodC (text : List Char) : Option PDate :=
  match findAllDates text with
  | _ :: d2 :: _ => tryParseDate d2
  | _ => none

def findDate (text : List Char) : Option PDate :=
  match methodA text with
  | some d => some d
  | none =>
      match methodB text with
      | some d => some d
      | none => methodC text

/-! ## Quantity extraction -/

/-- kWh cascade: new-format parenthetical first, else old `Kegunaan kWh`. -/
def kwhVal (text : List Char) : ℚ :=
  match searchG1 P_kwh_new text with
  | some g => clean_industrial_num g
  | none =>
      match searchG1 P_kwh_old text with
      | some g => clean_industrial_num g
      | none => 0

/-- The `Caj Semasa` lookup (0 when the pattern does not match). -/
def cajQ (text : List Char) : ℚ :=
  match searchG1 P_rm_caj text with
  | some g => clean_industrial_num g
  | none => 0

def jpbM (text : List Char) : Option (List Char) := searchG1 P_rm_jpb text

/-- The `backup` finditer fallback: last `(?:Jumlah|Total|Caj)`-labelled
amount anywhere in the text (0 when there is none). -/
def backupQ (text : List Char) : ℚ :=
  match (reFindAll P_backup text).getLast? with
  | some x => clean_industrial_num ((capLookup x.2 1).getD [])
  | none => 0

/-- RM cascade exactly as in app.py lines 112-128: `Caj Semasa`; if that
left 0.0, `Jumlah Perlu Bayar` when its pattern matches, and only in the
`else` branch (pattern absent) the finditer fallback. -/
def rmVal (text : List Char) : ℚ :=
  if cajQ text = 0 then
    match jpbM text with
    | some g => clean_industrial_num g
    | none => backupQ text
  else cajQ text

/-! ## The extractor result -/

structure BillRecord where
  year : Nat
  month : String
  month_num : Nat
  kWh : ℚ
  rm : ℚ
  status : String
deriving DecidableEq

/-- app.py `extract_data_from_text`. -/
def extract_data_from_text (text : List Char) : Option BillRecord :=
  match findDate text with
  | none => none
  | some d =>
      if 2010 ≤ d.year ∧ d.year ≤ 2030 then
        if 0 < kwhVal text ∨ 0 < rmVal text then
          some { year := d.year, month := monthAbbrev d.month, month_num := d.month,
                 kWh := kwhVal text, rm := rmVal text, status := "Found" }
        else none
      else none

/-! ## Page text source and per-document reconciliation (app.py 141-193)

The PDF library, rasterizer and OCR engine are external collaborators: a
page is modelled by what they would return for it (`direct` is
`page.extract_text()`, `ocr` the OCR transcription), and a document by the
outcome of opening it — an exception, or its pages, each of which may
itself raise while being read.  Every other step is translated from the
source. -/

structure Page where
  direct : Option (List Char)
  ocr : List Char
deriving DecidableEq

/-- Python `str.strip()`. -/
def pyStrip (s : List Char) : List Char :=
  ((s.dropWhile wsC).reverse.dropWhile wsC).reverse

/-- The direct-extraction attempt on one page:
`if text and len(text.strip()) > 50: page_data = extract_data_from_text(text)`. -/
def directAttempt (p : Page) : Option BillRecord :=
  match p.direct with
  | some t => if 50 < (pyStrip t).length then extract_data_from_text t else none
  | none => none

/-- One loop iteration of `process_pdf`: result record (if any) and whether
the OCR fallback was invoked (`if not page_data:`). -/
def processPage (p : Page) : Option BillRecord × Bool :=
  match directAttempt p with
  | some d => (some d, false)
  | none => (extract_data_from_text p.ocr, true)

/-- The in-place merge for a `(year, month_num)` collision inside
`data_map` (app.py 177-182). -/
def mergeRecord (stored pageData : BillRecord) : BillRecord :=
  { stored with
    kWh := if 0 < pageData.kWh then pageData.kWh else stored.kWh,
    rm := if 0 < pageData.rm then pageData.rm else stored.rm,
    status := "Found" }

abbrev DataMap := List ((Nat × Nat) × BillRecord)

/-- `data_map[key] = page_data` / merge, preserving dict insertion order. -/
def storePage (m : DataMap) (pd : BillRecord) : DataMap :=
  let k : Nat × Nat := (pd.year, pd.month_num)
  if m.any (fun e => decide (e.1 = k)) then
    m.map (fun e => if e.1 = k then (e.1, mergeRecord e.2 pd) else e)
  else m ++ [(k, pd)]

/-- The page loop; an exception from any page read aborts the loop, and the
`data_map` accumulated so far survives to the `return`. -/
def processPages : List (Except String Page) → DataMap → DataMap × Option String
  | [], m => (m, none)
  | Except.error e :: _, m => (m, some e)
  | Except.ok p :: rest, m =>
      match (processPage p).1 with
      | some pd => processPages rest (storePage m pd)
      | none => processPages rest m

structure Doc where
  name : String
  content : Except String (List (Except String Page))

/-- app.py `process_pdf`: record list for one document, plus the
`st.error` warning (document name, exception text) when one was caught. -/
def process_pdf (d : Doc) : List BillRecord × Option (String × String) :=
  match d.content with
  | Except.error e => ([], some (d.name, e))
  | Except.ok pages =>
      match processPages pages [] with
      | (m, some e) => (m.map (fun x => x.2), some (d.name, e))
      | (m, none) => (m.map (fun x => x.2), none)

/-- The upload loop (app.py 205-207): `all_results.extend(data)` per
document, warnings collected in order. -/
def processBatch (docs : List Doc) : List BillRecord × List (String × String) :=
  docs.foldl
    (fun acc d =>
      match process_pdf d with
      | (rs, some w) => (acc.1 ++ rs, acc.2 ++ [w])
      | (rs, none) => (acc.1 ++ rs, acc.2))
    ([], [])

/-! ## Cross-document aggregation (app.py 214-219)

`df_raw.groupby(['Year','Month_Num']).agg({'Month':'first', 'kWh':'max',
'RM':'max', 'Status':'first'}).reset_index()`: one row per distinct key, in
ascending key order, each reduced by per-column first/max. -/

def recKey (r : BillRecord) : Nat × Nat := (r.year, r.month_num)

def keyLe (a b : Nat × Nat) : Bool :=
  decide (a.1 < b.1 ∨ (a.1 = b.1 ∧ a.2 ≤ b.2))

def insertKey (k : Nat × Nat) : List (Nat × Nat) → List (Nat × Nat)
  | [] => [k]
  | k2 :: ks => if keyLe k k2 then k :: k2 :: ks else k2 :: insertKey k ks

/-- pandas sorts group keys ascending; insertion sort over the lex order. -/
def sortKeys (ks : List (Nat × Nat)) : List (Nat × Nat) := ks.foldr insertKey []

/-- pandas `'max'` over a group column (groups are never empty). -/
def qmax : List ℚ → ℚ
  | [] => 0
  | [x] => x
  | x :: y :: xs => max x (qmax (y :: xs))

def groupOf (l : List BillRecord) (k : Nat × Nat) : List BillRecord :=
  l.filter (fun s => decide (recKey s = k))

/-- The reduction of one `(Year, Month_Num)` group. -/
def groupReduce (l : List BillRecord) (k : Nat × Nat) : BillRecord :=
  { year := k.1,
    month := ((groupOf l k).head?.map (fun r => r.month)).getD "",
    month_num := k.2,
    kWh := qmax ((groupOf l k).map (fun r => r.kWh)),
    rm := qmax ((groupOf l k).map (fun r => r.rm)),
    status := ((groupOf l k).head?.map (fun r => r.status)).getD "" }

def aggregateRecords (l : List BillRecord) : List BillRecord :=
  (sortKeys ((l.map recKey).dedup)).map (groupReduce l)

/-! ## Timeline completion (app.py 221-239)

Each row gets `date = Year-Month_Num-01`; `pd.date_range(min, max,
freq='MS')` enumerates every month in the inclusive span; a left merge
keeps found rows and leaves gaps, whose Year/Month/Month_Num are recomputed
from the date and whose kWh/RM/Status are filled with 0.0/0.0/'MISSING';
finally rows are sorted by (Year, Month_Num) — already the range order.
Months are modelled by their absolute index `12*year + (month-1)`. -/

def monthIdx (y m : Nat) : Nat := 12 * y + (m - 1)

def idxYear (i : Nat) : Nat := i / 12

def idxMonth (i : Nat) : Nat := i % 12 + 1

def idxOfRec (r : BillRecord) : Nat := monthIdx r.year r.month_num

def natListMin : List Nat → Nat
  | [] => 0
  | [x] => x
  | x :: y :: xs => min x (natListMin (y :: xs))

def natListMax : List Nat → Nat
  | [] => 0
  | x :: xs => max x (natListMax xs)

def minIdx (l : List BillRecord) : Nat := natListMin (l.map idxOfRec)

def maxIdx (l : List BillRecord) : Nat := natListMax (l.map idxOfRec)

/-- The completed row for month-index `i`: the merged source row when one
exists (with Year/Month/Month_Num recomputed from the date, as the code
does for every row), otherwise a synthesized MISSING row. -/
def mkRow (l : List BillRecord) (i : Nat) : BillRecord :=
  match l.find? (fun r => idxOfRec r == i) with
  | some r =>
      { r with year := idxYear i, month := monthAbbrev (idxMonth i),
               month_num := idxMonth i }
  | none =>
      { year := idxYear i, month := monthAbbrev (idxMonth i),
        month_num := idxMonth i, kWh := 0, rm := 0, status := "MISSING" }

/-- Timeline completion applied to the aggregated rows. -/
def completeTimeline (l : List BillRecord) : List BillRecord :=
  match l with
  | [] => []
  | _ :: _ =>
      (List.range' (minIdx l) (maxIdx l - minIdx l + 1)).map (mkRow l)

/-- Aggregation followed by timeline completion (app.py 214-239). -/
def pipelineOut (l : List BillRecord) : List BillRecord :=
  completeTimeline (aggregateRecords l)

/-! ## Concrete inputs used by witnesses and counterexamples -/

/-- A page text with a `Tempoh Bil` date and a `Caj Semasa` amount;
stripped length 62 > 50. -/
def tGood : List Char :=
  "Tempoh Bil : 01.01.2023 - 31.01.2023 Caj Semasa RM 100.00 aaaa".toList

def recGood : BillRecord :=
  { year := 2023, month := "Jan", month_num := 1, kWh := 0, rm := 100, status := "Found" }

/-- Long direct text (stripped length 63 > 50) from which nothing is
extractable: no date at all. -/
def tJunk : List Char :=
  "the quick brown fox jumps over the lazy dog again and yet again".toList

/-- A page text whose `Jumlah Perlu Bayar` amount normalizes to zero while
a later `Total` amount exists. -/
def tC9 : List Char :=
  "Tempoh Bil : 01.01.2023 Jumlah Perlu Bayar 00 Total 123.45".toList

/-- A page text with no `Jumlah Perlu Bayar` label, a zero `Caj Semasa`
amount, and a nonzero trailing `Total` amount. -/
def tC9b : List Char := "Caj Semasa 0.00 Total 55.00".toList

def pageGood : Page := { direct := some tGood, ocr := [] }

def pageLongJunk : Page := { direct := some tJunk, ocr := [] }

def errDoc : Doc := { name := "corrupt.pdf", content := Except.error "cannot open" }

def goodDoc : Doc := { name := "good.pdf", content := Except.ok [Except.ok pageGood] }

/-- A document whose first page reads fine and whose second page raises. -/
def badDoc : Doc :=
  { name := "bad.pdf",
    content := Except.ok [Except.ok pageGood, Except.error "read failure"] }

/-! ## Helper lemmas about `splitDots` -/

theorem splitDots_ne_nil (s : List Char) : splitDots s ≠ [] := by
  induction s with
  | nil => simp [splitDots]
  | cons c cs ih =>
      by_cases h : c = '.' <;> simp [splitDots, h]

theorem splitDots_append_dot (a b : List Char) :
    splitDots (a ++ '.' :: b) = splitDots a ++ splitDots b := by
  induction a with
  | nil => simp [splitDots]
  | cons c cs ih =>
      by_cases h : c = '.'
      · simp [splitDots, h, ih]
      · cases hs : splitDots cs with
        | nil => exact absurd hs (splitDots_ne_nil cs)
        | cons p ps =>
            simp [splitDots, h, ih, hs]

theorem splitDots_no_dot (b : List Char) (h : '.' ∉ b) : splitDots b = [b] := by
  induction b with
  | nil => rfl
  | cons c cs ih =>
      have hc : c ≠ '.' := fun hc => h (hc ▸ List.mem_cons_self c cs)
      have hcs : '.' ∉ cs := fun hm => h (List.mem_cons_of_mem c hm)
      simp [splitDots, hc, ih hcs]

theorem flatten_splitDots (a : List Char) :
    (splitDots a).flatten = a.filter (fun c => !(c == '.')) := by
  induction a with
  | nil => rfl
  | cons c cs ih =>
      by_cases h : c = '.'
      · subst h
        simp [splitDots, List.filter, ih]
      · cases hs : splitDots cs with
        | nil => exact absurd hs (splitDots_ne_nil cs)
        | cons p ps =>
            rw [hs] at ih
            have hb : (c == '.') = false := by
              simp [beq_iff_eq]; exact h
            simp [splitDots, h, hs, List.filter_cons, hb, ← ih]

/-! ## Claim C10: multi-dot normalization -/

/-- C10: when more than one decimal point survives stripping, only the last
point is kept as the decimal separator and all preceding digit groups are
concatenated; in particular `clean_industrial_num "12.345.67" = 12345.67`. -/
theorem C10_last_dot_wins :
    clean_industrial_num "12.345.67".toList = mkRat 1234567 100
  ∧ ∀ a b : List Char, '.' ∉ b →
      fixMultiDot (a ++ '.' :: b) = (a.filter (fun c => !(c == '.'))) ++ '.' :: b := by
  constructor
  · decide
  · intro a b hb
    unfold fixMultiDot
    rw [splitDots_append_dot, splitDots_no_dot b hb]
    dsimp only
    rw [List.dropLast_concat, List.getLastD_concat, flatten_splitDots]

/-- C10 witness: the general part applied at the pieces of `"12.345.67"`. -/
theorem C10_witness :
    ('.' ∉ "67".toList)
  ∧ fixMultiDot ("12.345".toList ++ '.' :: "67".toList) =
      ("12.345".toList.filter (fun c => !(c == '.'))) ++ '.' :: "67".toList :=
  ⟨by decide, C10_last_dot_wins.2 "12.345".toList "67".toList (by decide)⟩

/-! ## Claim C1: record iff valid date and positive quantity -/

def C1Prop (text : List Char) : Prop :=
  ((extract_data_from_text text).isSome ↔
    ((∃ d, findDate text = some d ∧ 2010 ≤ d.year ∧ d.year ≤ 2030) ∧
      (0 < kwhVal text ∨ 0 < rmVal text)))
  ∧ (∀ rec, extract_data_from_text text = some rec →
      (0 < rec.kWh ∨ 0 < rec.rm) ∧ rec.status = "Found" ∧
      rec.kWh = kwhVal text ∧ rec.rm = rmVal text ∧
      ∃ d, findDate text = some d ∧ 2010 ≤ d.year ∧ d.year ≤ 2030 ∧
        rec.year = d.year ∧ rec.month_num = d.month ∧ rec.month = monthAbbrev d.month)

/-- C1: `extract_data_from_text` returns a populated record iff the date
cascade resolves a date with year in [2010, 2030] and at least one
extracted quantity is positive; otherwise it returns `none`, and any
returned record carries a positive quantity (never a zero-valued record),
keyed by the resolved date. -/
theorem C1_extract_record_iff (text : List Char) : C1Prop text := by
  unfold C1Prop
  cases h : findDate text with
  | none => simp [extract_data_from_text, h]
  | some d =>
      by_cases hy : 2010 ≤ d.year ∧ d.year ≤ 2030
      · by_cases hq : 0 < kwhVal text ∨ 0 < rmVal text
        · constructor
          · simp only [extract_data_from_text, h, if_pos hy, if_pos hq,
              Option.isSome_some, true_iff]
            exact ⟨⟨d, rfl, hy.1, hy.2⟩, hq⟩
          · intro rec hrec
            simp only [extract_data_from_text, h, if_pos hy, if_pos hq,
              Option.some.injEq] at hrec
            subst hrec
            exact ⟨hq, rfl, rfl, rfl, d, rfl, hy.1, hy.2, rfl, rfl, rfl⟩
        · simp only [extract_data_from_text, h, if_pos hy, if_neg hq]
          constructor
          · simp only [Option.isSome_none, Bool.false_eq_true, false_iff]
            intro hcon
            exact hq hcon.2
          · intro rec hrec
            exact absurd hrec (by simp)
      · simp only [extract_data_from_text, h, if_neg hy]
        constructor
        · simp only [Option.isSome_none, Bool.false_eq_true, false_iff]
          intro hcon
          obtain ⟨⟨d2, hd2, h1, h2⟩, _⟩ := hcon
          cases hd2
          exact hy ⟨h1, h2⟩
        · intro rec hrec
          exact absurd hrec (by simp)

/-- C1 witness: the characterization instantiated at a concrete bill text
that produces a record. -/
theorem C1_witness : C1Prop tGood ∧ extract_data_from_text tGood = some recGood :=
  ⟨C1_extract_record_iff tGood, by decide⟩

/-! ## Claim C3: per-document merge policy -/

def rec500_0 : BillRecord :=
  { year := 2023, month := "Jan", month_num := 1, kWh := 500, rm := 0, status := "Found" }

def rec0_300 : BillRecord :=
  { year := 2023, month := "Jan", month_num := 1, kWh := 0, rm := 300, status := "Found" }

/-- C3: on a (year, month) collision the merge keeps, per numeric field
independently, the later page value only when it is positive (a zero later
value never clobbers a stored value), and force-sets status to Found; and
the concrete example of the claim. -/
theorem C3_merge_policy :
    (∀ stored pageData : BillRecord,
        (0 < pageData.kWh → (mergeRecord stored pageData).kWh = pageData.kWh)
      ∧ (¬ 0 < pageData.kWh → (mergeRecord stored pageData).kWh = stored.kWh)
      ∧ (0 < pageData.rm → (mergeRecord stored pageData).rm = pageData.rm)
      ∧ (¬ 0 < pageData.rm → (mergeRecord stored pageData).rm = stored.rm)
      ∧ (mergeRecord stored pageData).status = "Found")
  ∧ mergeRecord rec500_0 rec0_300 =
      { year := 2023, month := "Jan", month_num := 1, kWh := 500, rm := 300,
        status := "Found" } := by
  constructor
  · intro stored pageData
    refine ⟨fun h => ?_, fun h => ?_, fun h => ?_, fun h => ?_, rfl⟩ <;>
      simp [mergeRecord, h]
  · decide

/-- C3 witness: the general merge facts applied to the example records. -/
theorem C3_witness :
    (0 < rec0_300.rm ∧ (mergeRecord rec500_0 rec0_300).rm = rec0_300.rm)
  ∧ (¬ 0 < rec0_300.kWh ∧ (mergeRecord rec500_0 rec0_300).kWh = rec500_0.kWh) :=
  ⟨⟨by decide, (C3_merge_policy.1 rec500_0 rec0_300).2.2.1 (by decide)⟩,
   ⟨by decide, (C3_merge_policy.1 rec500_0 rec0_300).2.1 (by decide)⟩⟩

/-! ## Claim C8: OCR fallback trigger -/

/-- The claim as stated: OCR is invoked iff the direct text is missing or
its stripped length is at most 50. -/
def shortOrMissingB (p : Page) : Bool :=
  match p.direct with
  | none => true
  | some t => decide ((pyStrip t).length ≤ 50)

def C8Claim (p : Page) : Prop := (processPage p).2 = shortOrMissingB p

/-- C8 counterexample: a page whose direct text is long (63 > 50 stripped
characters) but yields no record still triggers the OCR fallback, refuting
the claimed iff. -/
theorem C8_counterexample :
    (50 < (pyStrip tJunk).length ∧ pageLongJunk.direct = some tJunk ∧
      (processPage pageLongJunk).2 = true)
  ∧ ¬ C8Claim pageLongJunk := by
  constructor
  · exact ⟨by decide, rfl, by decide⟩
  · intro h
    unfold C8Claim at h
    exact absurd h (by decide)

/-- C8 (amended): the OCR fallback runs iff the direct attempt produced no
record — that is, the text was missing, or too short (at most 50 stripped
characters), or extraction from it yielded nothing; when the direct text is
long enough and extraction succeeds, that result is used and OCR is
skipped. -/
theorem C8_ocr_iff_direct_attempt_fails (p : Page) :
    ((processPage p).2 = true ↔ directAttempt p = none)
  ∧ (∀ t, p.direct = some t → 50 < (pyStrip t).length →
      directAttempt p = extract_data_from_text t)
  ∧ (∀ r, directAttempt p = some r → processPage p = (some r, false)) := by
  refine ⟨?_, ?_, ?_⟩
  · cases hd : directAttempt p with
    | none => simp [processPage, hd]
    | some r => simp [processPage, hd]
  · intro t ht hlen
    simp [directAttempt, ht, hlen]
  · intro r hr
    simp [processPage, hr]

/-- C8 witness: on the good page the direct attempt succeeds and is used
without OCR. -/
theorem C8_witness :
    processPage pageGood = (some recGood, false)
  ∧ directAttempt pageGood = extract_data_from_text tGood :=
  ⟨(C8_ocr_iff_direct_attempt_fails pageGood).2.2 recGood (by decide),
   (C8_ocr_iff_direct_attempt_fails pageGood).2.1 tGood rfl (by decide)⟩

/-! ## Claim C9: RM resolution cascade -/

/-- Value the `Jumlah Perlu Bayar` lookup yields (0 when the pattern does
not match), following the spec wording of C9. -/
def jpbQ (text : List Char) : ℚ :=
  match jpbM text with
  | some g => clean_industrial_num g
  | none => 0

/-- The claim as stated: `Caj Semasa`, else `Jumlah Perlu Bayar`, and if
that also yields zero, the last total/charge fallback. -/
def C9Claim (text : List Char) : Prop :=
  (cajQ text ≠ 0 → rmVal text = cajQ text)
  ∧ (cajQ text = 0 → jpbQ text ≠ 0 → rmVal text = jpbQ text)
  ∧ (cajQ text = 0 → jpbQ text = 0 → rmVal text = backupQ text)

/-- C9 counterexample: a text with a resolved valid date whose
`Jumlah Perlu Bayar` amount normalizes to zero and where the fallback would
find `123.45`; the code leaves RM at 0 instead of using the fallback,
because the fallback runs only when the `Jumlah Perlu Bayar` pattern is
absent. -/
theorem C9_counterexample :
    (findDate tC9 = some ⟨1, 1, 2023⟩ ∧ cajQ tC9 = 0 ∧ jpbQ tC9 = 0 ∧
      backupQ tC9 = mkRat 12345 100 ∧ rmVal tC9 = 0)
  ∧ ¬ C9Claim tC9 := by
  constructor
  · exact ⟨by decide, by decide, by decide, by decide, by decide⟩
  · intro h
    have h3 := h.2.2 (by decide) (by decide)
    rw [show rmVal tC9 = 0 from by decide, show backupQ tC9 = mkRat 12345 100 from by decide] at h3
    exact absurd h3 (by decide)

/-- C9 (amended): the RM cascade is `Caj Semasa` first; if it yields zero,
the `Jumlah Perlu Bayar` lookup result is used whenever that pattern
matches (even when it normalizes to zero), and the last total/charge
fallback is consulted only when the `Jumlah Perlu Bayar` pattern does not
match at all. -/
theorem C9_rm_cascade (text : List Char) :
    (cajQ text ≠ 0 → rmVal text = cajQ text)
  ∧ (cajQ text = 0 → ∀ g, jpbM text = some g → rmVal text = clean_industrial_num g)
  ∧ (cajQ text = 0 → jpbM text = none → rmVal text = backupQ text) := by
  refine ⟨?_, ?_, ?_⟩
  · intro h
    simp [rmVal, h]
  · intro h g hg
    simp [rmVal, h, hg]
  · intro h hg
    simp [rmVal, h, hg]

/-- C9 witness: both zero-Caj branches exercised on concrete texts. -/
theorem C9_witness :
    (cajQ tC9 = 0 ∧ jpbM tC9 = some [' ', '0', '0'] ∧
      rmVal tC9 = clean_industrial_num [' ', '0', '0'])
  ∧ (cajQ tC9b = 0 ∧ jpbM tC9b = none ∧ rmVal tC9b = backupQ tC9b) :=
  ⟨⟨by decide, by decide,
    (C9_rm_cascade tC9).2.1 (by decide) [' ', '0', '0'] (by decide)⟩,
   ⟨by decide, by decide, (C9_rm_cascade tC9b).2.2 (by decide) (by decide)⟩⟩

/-! ## Claim C7: per-document error handling -/

/-- One step of the upload fold. -/
theorem processBatch_cons (d : Doc) (docs : List Doc) :
    (processBatch (d :: docs)).1 = (process_pdf d).1 ++ (processBatch docs).1
  ∧ (processBatch (d :: docs)).2 =
      (match (process_pdf d).2 with
       | some w => [w]
       | none => []) ++ (processBatch docs).2 := by
  have key : ∀ ds : List Doc, ∀ acc : List BillRecord × List (String × String),
      ds.foldl
        (fun acc d =>
          match process_pdf d with
          | (rs, some w) => (acc.1 ++ rs, acc.2 ++ [w])
          | (rs, none) => (acc.1 ++ rs, acc.2))
        acc =
      (acc.1 ++ (processBatch ds).1, acc.2 ++ (processBatch ds).2) := by
    intro ds
    induction ds with
    | nil => intro acc; simp [processBatch]
    | cons d2 ds2 ih =>
        intro acc
        simp only [processBatch, List.foldl_cons] at ih ⊢
        cases hp : process_pdf d2 with
        | mk rs w? =>
            cases w? with
            | some w =>
                rw [ih, ih ([] ++ rs, [] ++ [w])]
                simp
            | none =>
                rw [ih, ih ([] ++ rs, [])]
                simp
  constructor
  · simp only [processBatch, List.foldl_cons]
    cases hp : process_pdf d with
    | mk rs w? =>
        cases w? with
        | some w => rw [key]; simp [processBatch]
        | none => rw [key]; simp [processBatch]
  · simp only [processBatch, List.foldl_cons]
    cases hp : process_pdf d with
    | mk rs w? =>
        cases w? with
        | some w => rw [key]; simp [processBatch]
        | none => rw [key]; simp [processBatch]

/-- C7 counterexample: a document that fails while being read after a page
already yielded a record: the error is caught and a warning naming the
document is produced, but the returned record list is NOT empty — it keeps
the records accumulated before the failure. -/
theorem C7_counterexample :
    (process_pdf badDoc).1 = [recGood]
  ∧ (process_pdf badDoc).1 ≠ []
  ∧ (process_pdf badDoc).2 = some ("bad.pdf", "read failure") := by
  refine ⟨by decide, ?_, by decide⟩
  intro h
  rw [show (process_pdf badDoc).1 = [recGood] from by decide] at h
  cases h

/-- C7 (amended): an error opening a document yields an empty record list
plus a warning naming that document; an error while reading yields the
records accumulated before the failure plus such a warning; every warning
names its document; and the batch loop processes all documents regardless,
concatenating per-document results. -/
theorem C7_document_failure_isolation :
    (∀ d e, d.content = Except.error e → process_pdf d = ([], some (d.name, e)))
  ∧ (∀ d w, (process_pdf d).2 = some w → w.1 = d.name)
  ∧ (∀ d docs, (processBatch (d :: docs)).1 = (process_pdf d).1 ++ (processBatch docs).1) := by
  refine ⟨?_, ?_, ?_⟩
  · intro d e he
    simp [process_pdf, he]
  · intro d w hw
    cases hc : d.content with
    | error e =>
        simp only [process_pdf, hc] at hw
        cases hw
        rfl
    | ok pages =>
        simp only [process_pdf, hc] at hw
        cases hpp : processPages pages [] with
        | mk m err? =>
            rw [hpp] at hw
            cases err? with
            | some e =>
                simp only at hw
                cases hw
                rfl
            | none => simp at hw
  · intro d docs
    exact (processBatch_cons d docs).1

/-- C7 witness: an unopenable document yields ([], warning) and the batch
still processes the following good document. -/
theorem C7_witness :
    process_pdf errDoc = ([], some ("corrupt.pdf", "cannot open"))
  ∧ (processBatch [errDoc, goodDoc]).1 =
      (process_pdf errDoc).1 ++ (processBatch [goodDoc]).1 :=
  ⟨C7_document_failure_isolation.1 errDoc "cannot open" rfl,
   C7_document_failure_isolation.2.2 errDoc [goodDoc]⟩

/-! ## Claim C2: the normalizer is total and yields 0 without digits -/

/-- Characters of a search match come from the searched string. -/
theorem reSearchAux_chars_sub (r : RE) :
    ∀ (cs : List Char) (i : Nat) (x : Nat × List Char × Caps),
      reSearchAux r cs i = some x → ∀ c ∈ x.2.1, c ∈ cs := by
  intro cs
  induction cs with
  | nil =>
      intro i x h c hc
      unfold reSearchAux at h
      cases hr : runRE r [] with
      | nil => rw [hr] at h; cases h
      | cons y ys =>
          rw [hr] at h
          cases h
          cases hc
  | cons c0 cs ih =>
      intro i x h c hc
      unfold reSearchAux at h
      cases hr : runRE r (c0 :: cs) with
      | cons y ys =>
          rw [hr] at h
          cases h
          exact List.mem_of_mem_take hc
      | nil =>
          rw [hr] at h
          exact List.mem_cons_of_mem c0 (ih (i + 1) x h c hc)

theorem matchedNum_chars_sub (raw m : List Char) (hm : matchedNum raw = some m) :
    ∀ c ∈ m, c ∈ raw := by
  unfold matchedNum at hm
  cases h1 : reSearchAux P_num1 raw 0 with
  | some x =>
      rw [h1] at hm
      cases hm
      exact reSearchAux_chars_sub P_num1 raw 0 x h1
  | none =>
      rw [h1] at hm
      cases h2 : reSearchAux P_num2 raw 0 with
      | some x =>
          rw [h2] at hm
          cases hm
          exact reSearchAux_chars_sub P_num2 raw 0 x h2
      | none => rw [h2] at hm; cases hm

theorem flatten_all_nil (parts : List (List Char)) (h : ∀ p ∈ parts, p = []) :
    parts.flatten = [] := by
  induction parts with
  | nil => rfl
  | cons p ps ih =>
      rw [List.flatten_cons, h p (List.mem_cons_self p ps),
        ih (fun q hq => h q (List.mem_cons_of_mem p hq))]
      rfl

theorem getLastD_all_nil :
    ∀ (parts : List (List Char)) (d : List Char),
      (∀ p ∈ parts, p = []) → d = [] → parts.getLastD d = [] := by
  intro parts
  induction parts with
  | nil => intro d _ hd; exact hd
  | cons p ps ih =>
      intro d h _
      rw [List.getLastD_cons]
      exact ih p (fun q hq => h q (List.mem_cons_of_mem p hq)) (h p (List.mem_cons_self p ps))

theorem splitDots_all_dots (s : List Char) (h : ∀ c ∈ s, c = '.') :
    ∀ p ∈ splitDots s, p = [] := by
  induction s with
  | nil =>
      intro p hp
      simp only [splitDots, List.mem_singleton] at hp
      exact hp
  | cons c cs ih =>
      intro p hp
      have hc : c = '.' := h c (List.mem_cons_self c cs)
      simp only [splitDots, if_pos hc, List.mem_cons] at hp
      cases hp with
      | inl he => exact he
      | inr hm => exact ih (fun q hq => h q (List.mem_cons_of_mem c hq)) p hm

theorem fixMultiDot_all_dots (s : List Char) (h : ∀ c ∈ s, c = '.') :
    fixMultiDot s = ['.'] := by
  unfold fixMultiDot
  dsimp only
  have hall := splitDots_all_dots s h
  rw [flatten_all_nil _ (fun p hp => hall p ((List.dropLast_sublist (splitDots s)).subset hp)),
    getLastD_all_nil _ _ hall rfl]
  rfl

/-- C2: `clean_industrial_num` is a total function (it can never raise),
and on any input without a single digit it returns 0; in particular the
no-plausible-number and failed-parse paths both produce 0 rather than an
error. -/
theorem C2_clean_no_digits (raw : List Char) (h : ∀ c ∈ raw, c.isDigit = false) :
    clean_industrial_num raw = 0 := by
  unfold clean_industrial_num
  by_cases hr : raw = []
  · rw [if_pos hr]
  · rw [if_neg hr]
    cases hm : matchedNum raw with
    | none => rfl
    | some m =>
        dsimp only
        have hdot : ∀ c ∈ m.filter digitOrDot, c = '.' := by
          intro c hc
          obtain ⟨hcm, hcd⟩ := List.mem_filter.1 hc
          have hd := h c (matchedNum_chars_sub raw m hm c hcm)
          unfold digitOrDot at hcd
          rw [hd] at hcd
          simpa using hcd
        by_cases hcnt : 1 < (m.filter digitOrDot).count '.'
        · rw [if_pos hcnt, fixMultiDot_all_dots _ hdot]
          rfl
        · rw [if_neg hcnt]
          rw [not_lt] at hcnt
          have hlen : (m.filter digitOrDot).count '.' = (m.filter digitOrDot).length :=
            List.count_eq_length.2 (fun b hb => (hdot b hb).symm)
          rw [hlen] at hcnt
          cases hs : m.filter digitOrDot with
          | nil => rfl
          | cons c t =>
              have hc : c = '.' := hdot c (hs ▸ List.mem_cons_self c t)
              have ht : t = [] := by
                rw [hs] at hcnt
                simp only [List.length_cons] at hcnt
                exact List.eq_nil_of_length_eq_zero (by omega)
              subst hc ht
              rfl

/-- C2 witness: the no-digit fact applied to a concrete digit-free string
(which the fallback pattern still matches, and whose parse then fails). -/
theorem C2_witness :
    (∀ c ∈ ",..abc".toList, c.isDigit = false)
  ∧ clean_industrial_num ",..abc".toList = 0 :=
  ⟨by decide, C2_clean_no_digits ",..abc".toList (by decide)⟩

/-! ## Helper lemmas: key order and insertion sort -/

theorem keyLe_iff (a b : Nat × Nat) :
    keyLe a b = true ↔ (a.1 < b.1 ∨ (a.1 = b.1 ∧ a.2 ≤ b.2)) := by
  unfold keyLe
  exact decide_eq_true_iff

theorem keyLe_total (a b : Nat × Nat) : keyLe a b = true ∨ keyLe b a = true := by
  rw [keyLe_iff, keyLe_iff]
  omega

theorem mem_insertKey (k a : Nat × Nat) (l : List (Nat × Nat)) :
    a ∈ insertKey k l ↔ a = k ∨ a ∈ l := by
  induction l with
  | nil => simp [insertKey]
  | cons k2 ks ih =>
      unfold insertKey
      by_cases h : keyLe k k2 = true
      · simp [h]
      · simp only [if_neg h, List.mem_cons, ih]
        tauto

theorem nodup_insertKey (k : Nat × Nat) (l : List (Nat × Nat)) (hk : k ∉ l)
    (h : l.Nodup) : (insertKey k l).Nodup := by
  induction l with
  | nil => simp [insertKey]
  | cons k2 ks ih =>
      rw [List.nodup_cons] at h
      unfold insertKey
      by_cases hle : keyLe k k2 = true
      · rw [if_pos hle, List.nodup_cons, List.nodup_cons]
        exact ⟨by simpa using hk, h.1, h.2⟩
      · rw [if_neg hle, List.nodup_cons]
        constructor
        · rw [mem_insertKey]
          rintro (he | hm)
          · exact hk (he ▸ List.mem_cons_self k2 ks)
          · exact h.1 hm
        · exact ih (fun hm => hk (List.mem_cons_of_mem k2 hm)) h.2

theorem mem_sortKeys (a : Nat × Nat) (l : List (Nat × Nat)) :
    a ∈ sortKeys l ↔ a ∈ l := by
  induction l with
  | nil => simp [sortKeys]
  | cons k ks ih =>
      unfold sortKeys at ih ⊢
      rw [List.foldr_cons, mem_insertKey, ih, List.mem_cons]

theorem nodup_sortKeys (l : List (Nat × Nat)) (h : l.Nodup) : (sortKeys l).Nodup := by
  induction l with
  | nil => simp [sortKeys]
  | cons k ks ih =>
      rw [List.nodup_cons] at h
      unfold sortKeys
      rw [List.foldr_cons]
      exact nodup_insertKey k _ (fun hm => h.1 ((mem_sortKeys k ks).1 hm)) (ih h.2)

theorem sortKeys_eq_self (l : List (Nat × Nat))
    (h : l.Pairwise (fun a b => keyLe a b = true)) : sortKeys l = l := by
  induction l with
  | nil => rfl
  | cons k ks ih =>
      rw [List.pairwise_cons] at h
      unfold sortKeys
      rw [List.foldr_cons]
      have hks : sortKeys ks = ks := ih h.2
      unfold sortKeys at hks
      rw [hks]
      cases ks with
      | nil => rfl
      | cons k2 ks2 =>
          unfold insertKey
          rw [if_pos (h.1 k2 (List.mem_cons_self k2 ks2))]

/-! ## Helper lemmas: aggregation -/

theorem recKey_groupReduce (l : List BillRecord) (k : Nat × Nat) :
    recKey (groupReduce l k) = k := rfl

theorem aggregate_keys (l : List BillRecord) :
    (aggregateRecords l).map recKey = sortKeys ((l.map recKey).dedup) := by
  unfold aggregateRecords
  rw [List.map_map]
  have : (recKey ∘ groupReduce l) = id := by
    funext k
    exact recKey_groupReduce l k
  rw [this, List.map_id]

theorem aggregate_keys_nodup (l : List BillRecord) :
    ((aggregateRecords l).map recKey).Nodup := by
  rw [aggregate_keys]
  exact nodup_sortKeys _ (List.nodup_dedup _)

theorem aggregate_keys_mem (l : List BillRecord) (k : Nat × Nat) :
    k ∈ (aggregateRecords l).map recKey ↔ k ∈ l.map recKey := by
  rw [aggregate_keys, mem_sortKeys, List.mem_dedup]

theorem groupOf_ne_nil (l : List BillRecord) (k : Nat × Nat)
    (hk : k ∈ l.map recKey) : groupOf l k ≠ [] := by
  obtain ⟨a, ha, hak⟩ := List.mem_map.1 hk
  intro hnil
  have : a ∈ groupOf l k := List.mem_filter.2 ⟨ha, by simp [hak]⟩
  rw [hnil] at this
  cases this

theorem groupOf_self (l : List BillRecord) (hnd : (l.map recKey).Nodup)
    (a : BillRecord) (ha : a ∈ l) : groupOf l (recKey a) = [a] := by
  induction l with
  | nil => cases ha
  | cons b bs ih =>
      rw [List.map_cons, List.nodup_cons] at hnd
      cases ha with
      | head =>
          unfold groupOf
          rw [List.filter_cons]
          simp only [decide_eq_true_eq, decide_True, if_pos rfl]
          have : List.filter (fun s => decide (recKey s = recKey a)) bs = [] := by
            rw [List.filter_eq_nil_iff]
            intro x hx
            simp only [decide_eq_true_eq]
            intro he
            exact hnd.1 (List.mem_map.2 ⟨x, hx, he⟩)
          simpa using this
      | tail _ hm =>
          have hbk : recKey b ≠ recKey a := by
            intro he
            exact hnd.1 (List.mem_map.2 ⟨a, hm, he.symm⟩)
          unfold groupOf at ih ⊢
          rw [List.filter_cons]
          simp only [decide_eq_true_eq]
          rw [if_neg (by simpa using hbk)]
          exact ih hnd.2 hm

theorem groupReduce_self (l : List BillRecord) (hnd : (l.map recKey).Nodup)
    (a : BillRecord) (ha : a ∈ l) : groupReduce l (recKey a) = a := by
  unfold groupReduce
  rw [groupOf_self l hnd a ha]
  cases a
  simp [qmax, recKey]

theorem aggregate_eq_self (l : List BillRecord) (hnd : (l.map recKey).Nodup)
    (hsorted : (l.map recKey).Pairwise (fun a b => keyLe a b = true)) :
    aggregateRecords l = l := by
  unfold aggregateRecords
  rw [List.dedup_eq_self.2 hnd, sortKeys_eq_self _ hsorted, List.map_map]
  have : l.map (groupReduce l ∘ recKey) = l.map id :=
    List.map_congr_left (fun a ha => groupReduce_self l hnd a ha)
  rw [this, List.map_id]

/-! ## Claim C4: cross-document aggregation -/

def C4Prop (l : List BillRecord) : Prop :=
  ((aggregateRecords l).map recKey).Nodup
  ∧ (∀ k, k ∈ (aggregateRecords l).map recKey ↔ k ∈ l.map recKey)
  ∧ (∀ r ∈ aggregateRecords l,
        r.kWh = qmax ((groupOf l (recKey r)).map (fun s => s.kWh))
      ∧ r.rm = qmax ((groupOf l (recKey r)).map (fun s => s.rm))
      ∧ ∃ f, (groupOf l (recKey r)).head? = some f ∧ r.month = f.month ∧ r.status = f.status)

/-- C4: the aggregation step produces exactly one record per distinct
(year, month) key of the input, whose kWh and RM are the per-field maxima
over that key group and whose month label and status come from the
first-seen record of the group. -/
theorem C4_aggregate_max_first (l : List BillRecord) : C4Prop l := by
  refine ⟨aggregate_keys_nodup l, fun k => aggregate_keys_mem l k, ?_⟩
  intro r hr
  obtain ⟨k, hk, hrk⟩ := List.mem_map.1 hr
  have hkmem : k ∈ l.map recKey :=
    List.mem_dedup.1 ((mem_sortKeys k _).1 hk)
  subst hrk
  rw [recKey_groupReduce]
  cases hg : groupOf l k with
  | nil => exact absurd hg (groupOf_ne_nil l k hkmem)
  | cons f fs =>
      refine ⟨?_, ?_, f, ?_, ?_, ?_⟩ <;>
        simp [groupReduce, hg]

/-- Records used by aggregation examples: April, January, and a January
partial duplicate with a higher RM. -/
def exAggIn : List BillRecord :=
  [{ year := 2023, month := "Apr", month_num := 4, kWh := 800, rm := 400, status := "Found" },
   { year := 2023, month := "Jan", month_num := 1, kWh := 1000, rm := 500, status := "Found" },
   { year := 2023, month := "Jan", month_num := 1, kWh := 0, rm := 999, status := "Found" }]

/-- C4 witness: the characterization at a concrete input, plus the
resulting table (sorted keys, per-field maxima, first-seen labels). -/
theorem C4_witness :
    C4Prop exAggIn
  ∧ aggregateRecords exAggIn =
      [{ year := 2023, month := "Jan", month_num := 1, kWh := 1000, rm := 999, status := "Found" },
       { year := 2023, month := "Apr", month_num := 4, kWh := 800, rm := 400, status := "Found" }] :=
  ⟨C4_aggregate_max_first exAggIn, by decide⟩

/-! ## Helper lemmas: month indices and list min/max -/

theorem monthIdx_idx (i : Nat) : monthIdx (idxYear i) (idxMonth i) = i := by
  unfold monthIdx idxYear idxMonth
  omega

theorem idxYear_monthIdx (y m : Nat) (h1 : 1 ≤ m) (h2 : m ≤ 12) :
    idxYear (monthIdx y m) = y ∧ idxMonth (monthIdx y m) = m := by
  unfold monthIdx idxYear idxMonth
  omega

theorem idxMonth_bounds (i : Nat) : 1 ≤ idxMonth i ∧ idxMonth i ≤ 12 := by
  unfold idxMonth
  omega

theorem mkRow_fields (l : List BillRecord) (i : Nat) :
    (mkRow l i).year = idxYear i ∧ (mkRow l i).month = monthAbbrev (idxMonth i) ∧
    (mkRow l i).month_num = idxMonth i := by
  unfold mkRow
  cases l.find? (fun r => idxOfRec r == i) <;> exact ⟨rfl, rfl, rfl⟩

theorem idxOfRec_mkRow (l : List BillRecord) (i : Nat) : idxOfRec (mkRow l i) = i := by
  have h := mkRow_fields l i
  unfold idxOfRec
  rw [h.1, h.2.2]
  exact monthIdx_idx i

theorem recKey_mkRow (l : List BillRecord) (i : Nat) :
    recKey (mkRow l i) = (idxYear i, idxMonth i) := by
  have h := mkRow_fields l i
  unfold recKey
  rw [h.1, h.2.2]

theorem natListMin_le (xs : List Nat) (x : Nat) (hx : x ∈ xs) : natListMin xs ≤ x := by
  induction xs with
  | nil => cases hx
  | cons y ys ih =>
      cases ys with
      | nil =>
          rw [List.mem_singleton] at hx
          subst hx
          exact Nat.le_refl x
      | cons z zs =>
          rw [List.mem_cons] at hx
          cases hx with
          | inl he => subst he; exact Nat.min_le_left _ _
          | inr hm =>
              exact Nat.le_trans (Nat.min_le_right _ _) (ih hm)

theorem natListMin_mem (xs : List Nat) (h : xs ≠ []) : natListMin xs ∈ xs := by
  induction xs with
  | nil => exact absurd rfl h
  | cons y ys ih =>
      cases ys with
      | nil => exact List.mem_singleton.2 rfl
      | cons z zs =>
          show min y (natListMin (z :: zs)) ∈ y :: z :: zs
          rcases Nat.le_total y (natListMin (z :: zs)) with hle | hle
          · rw [Nat.min_eq_left hle]
            exact List.mem_cons_self y _
          · rw [Nat.min_eq_right hle]
            exact List.mem_cons_of_mem y (ih (by simp))

theorem le_natListMax (xs : List Nat) (x : Nat) (hx : x ∈ xs) : x ≤ natListMax xs := by
  induction xs with
  | nil => cases hx
  | cons y ys ih =>
      rw [List.mem_cons] at hx
      show _ ≤ max y (natListMax ys)
      cases hx with
      | inl he => subst he; exact Nat.le_max_left _ _
      | inr hm => exact Nat.le_trans (ih hm) (Nat.le_max_right _ _)

theorem natListMax_mem (xs : List Nat) (h : xs ≠ []) : natListMax xs ∈ xs := by
  induction xs with
  | nil => exact absurd rfl h
  | cons y ys ih =>
      show max y (natListMax ys) ∈ y :: ys
      cases ys with
      | nil =>
          simp [natListMax]
      | cons z zs =>
          rcases Nat.le_total (natListMax (z :: zs)) y with hle | hle
          · rw [Nat.max_eq_left hle]
            exact List.mem_cons_self y _
          · rw [Nat.max_eq_right hle]
            exact List.mem_cons_of_mem y (ih (by simp))

theorem natListMin_cons_of_le (a : Nat) (xs : List Nat) (h : ∀ x ∈ xs, a ≤ x) :
    natListMin (a :: xs) = a := by
  cases xs with
  | nil => rfl
  | cons z zs =>
      show min a (natListMin (z :: zs)) = a
      exact Nat.min_eq_left (h _ (natListMin_mem (z :: zs) (by simp)))

theorem natListMin_range' (s n : Nat) : natListMin (List.range' s (n + 1)) = s := by
  rw [List.range'_succ]
  exact natListMin_cons_of_le s _ (fun x hx => Nat.le_of_succ_le (List.mem_range'_1.1 hx).1)

theorem natListMax_range' (s n : Nat) : natListMax (List.range' s (n + 1)) = s + n := by
  induction n generalizing s with
  | zero => simp [List.range', natListMax]
  | succ n ih =>
      rw [List.range'_succ]
      show max s (natListMax (List.range' (s + 1) (n + 1))) = s + (n + 1)
      rw [ih (s + 1)]
      omega

/-! ## Claim C5: timeline completion -/

theorem completeTimeline_eq (l : List BillRecord) (h : l ≠ []) :
    completeTimeline l = (List.range' (minIdx l) (maxIdx l - minIdx l + 1)).map (mkRow l) := by
  cases l with
  | nil => exact absurd rfl h
  | cons a as => rfl

theorem map_idxOfRec_completeTimeline (l : List BillRecord) (h : l ≠ []) :
    (completeTimeline l).map idxOfRec = List.range' (minIdx l) (maxIdx l - minIdx l + 1) := by
  rw [completeTimeline_eq l h, List.map_map]
  have hcomp : (idxOfRec ∘ mkRow l) = id := funext (idxOfRec_mkRow l)
  rw [hcomp, List.map_id]

/-- A valid record sits at the (year, month) decoded from its month index. -/
theorem recKey_eq_of_idx (s : BillRecord) (h1 : 1 ≤ s.month_num) (h2 : s.month_num ≤ 12) :
    recKey s = (idxYear (idxOfRec s), idxMonth (idxOfRec s)) := by
  have h := idxYear_monthIdx s.year s.month_num h1 h2
  unfold idxOfRec
  rw [h.1, h.2]
  rfl

def validMonths (l : List BillRecord) : Prop :=
  ∀ r ∈ l, 1 ≤ r.month_num ∧ r.month_num ≤ 12

def C5Prop (l : List BillRecord) : Prop :=
  ((completeTimeline l).map idxOfRec = List.range' (minIdx l) (maxIdx l - minIdx l + 1))
  ∧ (completeTimeline l).length = maxIdx l - minIdx l + 1
  ∧ (∀ r ∈ l, minIdx l ≤ idxOfRec r ∧ idxOfRec r ≤ maxIdx l)
  ∧ minIdx l ∈ l.map idxOfRec
  ∧ maxIdx l ∈ l.map idxOfRec
  ∧ (∀ r ∈ completeTimeline l,
      1 ≤ r.month_num ∧ r.month_num ≤ 12 ∧ r.month = monthAbbrev r.month_num)
  ∧ (∀ r ∈ completeTimeline l, (∀ s ∈ l, recKey s ≠ recKey r) →
      r.status = "MISSING" ∧ r.kWh = 0 ∧ r.rm = 0)
  ∧ (∀ r ∈ completeTimeline l, (∃ s ∈ l, recKey s = recKey r) →
      ∃ s ∈ l, recKey s = recKey r ∧ r.kWh = s.kWh ∧ r.rm = s.rm ∧ r.status = s.status)

/-- C5: on a non-empty aggregate with valid months the completed timeline
covers every month index from the minimum to the maximum observed, in
ascending order with exactly one row per month (its map under `idxOfRec` is
the contiguous range), spans exactly the observed extremes, keeps the
values and status of months present in the aggregate, and fills every
absent month with a MISSING row whose kWh and RM are 0. -/
theorem C5_timeline_completion (l : List BillRecord) (hne : l ≠ [])
    (hv : validMonths l) : C5Prop l := by
  have hTl := completeTimeline_eq l hne
  have hmap := map_idxOfRec_completeTimeline l hne
  have hmapne : l.map idxOfRec ≠ [] := by
    intro hmn
    exact hne (List.map_eq_nil_iff.1 hmn)
  refine ⟨hmap, ?_, ?_, ?_, ?_, ?_, ?_, ?_⟩
  · have hlen := congrArg List.length hmap
    rw [List.length_map, List.length_range'] at hlen
    exact hlen
  · intro r hr
    exact ⟨natListMin_le _ _ (List.mem_map_of_mem idxOfRec hr),
      le_natListMax _ _ (List.mem_map_of_mem idxOfRec hr)⟩
  · exact natListMin_mem _ hmapne
  · exact natListMax_mem _ hmapne
  · intro r hr
    rw [hTl] at hr
    obtain ⟨i, _, hrec⟩ := List.mem_map.1 hr
    subst hrec
    have hf := mkRow_fields l i
    exact ⟨hf.2.2 ▸ (idxMonth_bounds i).1, hf.2.2 ▸ (idxMonth_bounds i).2,
      by rw [hf.2.1, hf.2.2]⟩
  · intro r hr hnone
    rw [hTl] at hr
    obtain ⟨i, _, hrec⟩ := List.mem_map.1 hr
    subst hrec
    cases hfind : l.find? (fun r => idxOfRec r == i) with
    | some s1 =>
        exfalso
        have hs1l : s1 ∈ l := List.mem_of_find?_eq_some hfind
        have hs1i : idxOfRec s1 = i := by simpa using List.find?_some hfind
        have hkey : recKey s1 = recKey (mkRow l i) := by
          rw [recKey_mkRow, ← hs1i]
          exact recKey_eq_of_idx s1 (hv s1 hs1l).1 (hv s1 hs1l).2
        exact hnone s1 hs1l hkey
    | none =>
        unfold mkRow
        rw [hfind]
        exact ⟨rfl, rfl, rfl⟩
  · intro r hr hex
    rw [hTl] at hr
    obtain ⟨i, _, hrec⟩ := List.mem_map.1 hr
    subst hrec
    obtain ⟨s0, hs0l, hs0k⟩ := hex
    cases hfind : l.find? (fun r => idxOfRec r == i) with
    | none =>
        exfalso
        have hno := List.find?_eq_none.1 hfind
        have hs0i : idxOfRec s0 = i := by
          rw [recKey_mkRow] at hs0k
          unfold recKey at hs0k
          rw [Prod.mk.injEq] at hs0k
          unfold idxOfRec
          rw [hs0k.1, hs0k.2]
          exact monthIdx_idx i
        exact (hno s0 hs0l) (by simp [hs0i])
    | some s1 =>
        have hs1l : s1 ∈ l := List.mem_of_find?_eq_some hfind
        have hs1i : idxOfRec s1 = i := by simpa using List.find?_some hfind
        refine ⟨s1, hs1l, ?_, ?_, ?_, ?_⟩
        · rw [recKey_mkRow, ← hs1i]
          exact recKey_eq_of_idx s1 (hv s1 hs1l).1 (hv s1 hs1l).2
        · unfold mkRow
          rw [hfind]
        · unfold mkRow
          rw [hfind]
        · unfold mkRow
          rw [hfind]

/-- The aggregate of the claim example: January to April 2023 with March
missing. -/
def exAgg : List BillRecord :=
  [{ year := 2023, month := "Jan", month_num := 1, kWh := 1000, rm := 500, status := "Found" },
   { year := 2023, month := "Feb", month_num := 2, kWh := 200, rm := 100, status := "Found" },
   { year := 2023, month := "Apr", month_num := 4, kWh := 800, rm := 400, status := "Found" }]

/-- C5 witness: the theorem applied to the example aggregate, plus the
concrete completed timeline: exactly 4 rows, March synthesized as MISSING
with zero fields, in ascending order. -/
theorem C5_witness :
    (exAgg ≠ [] ∧ validMonths exAgg)
  ∧ C5Prop exAgg
  ∧ completeTimeline exAgg =
      [{ year := 2023, month := "Jan", month_num := 1, kWh := 1000, rm := 500, status := "Found" },
       { year := 2023, month := "Feb", month_num := 2, kWh := 200, rm := 100, status := "Found" },
       { year := 2023, month := "Mar", month_num := 3, kWh := 0, rm := 0, status := "MISSING" },
       { year := 2023, month := "Apr", month_num := 4, kWh := 800, rm := 400, status := "Found" }] :=
  ⟨⟨by decide, by unfold validMonths; decide⟩,
   C5_timeline_completion exAgg (by decide) (by unfold validMonths; decide), by decide⟩

/-! ## Claim C6: idempotence of aggregation + completion -/

theorem aggregate_ne_nil (l : List BillRecord) (h : l ≠ []) :
    aggregateRecords l ≠ [] := by
  cases l with
  | nil => exact absurd rfl h
  | cons a as =>
      intro hnil
      have hmem : recKey a ∈ (aggregateRecords (a :: as)).map recKey :=
        (aggregate_keys_mem _ _).2 (List.mem_map_of_mem recKey (List.mem_cons_self a as))
      rw [hnil] at hmem
      cases hmem

theorem map_recKey_timeline (A : List BillRecord) (lo n : Nat) :
    ((List.range' lo n).map (mkRow A)).map recKey
      = (List.range' lo n).map (fun i => (idxYear i, idxMonth i)) := by
  rw [List.map_map]
  exact List.map_congr_left (fun i _ => recKey_mkRow A i)

theorem idxKey_inj : Function.Injective (fun i : Nat => (idxYear i, idxMonth i)) := by
  intro i j h
  rw [Prod.mk.injEq] at h
  rw [← monthIdx_idx i, ← monthIdx_idx j, h.1, h.2]

theorem timeline_keys_nodup (A : List BillRecord) (lo n : Nat) :
    (((List.range' lo n).map (mkRow A)).map recKey).Nodup := by
  rw [map_recKey_timeline]
  exact (List.nodup_range' lo n).map idxKey_inj

theorem timeline_keys_sorted (A : List BillRecord) (lo n : Nat) :
    (((List.range' lo n).map (mkRow A)).map recKey).Pairwise
      (fun a b => keyLe a b = true) := by
  rw [map_recKey_timeline]
  refine List.Pairwise.map _ ?_ (List.pairwise_lt_range' lo n)
  intro i j hij
  rw [keyLe_iff]
  unfold idxYear idxMonth
  omega

theorem find?_beq_self (i : Nat) (js : List Nat) (h : i ∈ js) :
    js.find? (fun x => x == i) = some i := by
  induction js with
  | nil => cases h
  | cons j js2 ih =>
      simp only [List.find?]
      by_cases hj : (j == i) = true
      · rw [hj]
        have he : j = i := eq_of_beq hj
        rw [he]
      · rw [Bool.not_eq_true] at hj
        rw [hj]
        rw [List.mem_cons] at h
        cases h with
        | inl he =>
            rw [he] at hj
            simp at hj
        | inr hm => exact ih hm

theorem mkRow_update_self (r : BillRecord) (i : Nat) (hy : r.year = idxYear i)
    (hm : r.month = monthAbbrev (idxMonth i)) (hn : r.month_num = idxMonth i) :
    { r with
      year := idxYear i
      month := monthAbbrev (idxMonth i)
      month_num := idxMonth i } = r := by
  cases r
  simp_all

theorem mkRow_eq_found (l : List BillRecord) (i : Nat) (r : BillRecord)
    (h : l.find? (fun s => idxOfRec s == i) = some r) :
    mkRow l i =
      { r with
        year := idxYear i
        month := monthAbbrev (idxMonth i)
        month_num := idxMonth i } := by
  unfold mkRow
  rw [h]

theorem mkRow_timeline (A : List BillRecord) (lo n : Nat) (i : Nat)
    (hi : i ∈ List.range' lo n) :
    mkRow ((List.range' lo n).map (mkRow A)) i = mkRow A i := by
  have hfun : ((fun r => idxOfRec r == i) ∘ mkRow A) = (fun x => x == i) := by
    funext j
    simp [Function.comp, idxOfRec_mkRow]
  have hfind : ((List.range' lo n).map (mkRow A)).find? (fun r => idxOfRec r == i)
      = some (mkRow A i) := by
    rw [List.find?_map, hfun, find?_beq_self i _ hi]
    rfl
  rw [mkRow_eq_found _ i _ hfind]
  exact mkRow_update_self (mkRow A i) i (mkRow_fields A i).1 (mkRow_fields A i).2.1
    (mkRow_fields A i).2.2

theorem map_idxOfRec_timeline (A : List BillRecord) (lo n : Nat) :
    ((List.range' lo n).map (mkRow A)).map idxOfRec = List.range' lo n := by
  rw [List.map_map]
  have hcomp : (idxOfRec ∘ mkRow A) = id := funext (idxOfRec_mkRow A)
  rw [hcomp, List.map_id]

theorem minIdx_timeline (A : List BillRecord) (lo n : Nat) :
    minIdx ((List.range' lo (n + 1)).map (mkRow A)) = lo := by
  unfold minIdx
  rw [map_idxOfRec_timeline]
  exact natListMin_range' lo n

theorem maxIdx_timeline (A : List BillRecord) (lo n : Nat) :
    maxIdx ((List.range' lo (n + 1)).map (mkRow A)) = lo + n := by
  unfold maxIdx
  rw [map_idxOfRec_timeline]
  exact natListMax_range' lo n

theorem timeline_ne_nil (A : List BillRecord) (lo n : Nat) :
    (List.range' lo (n + 1)).map (mkRow A) ≠ [] := by
  rw [List.range'_succ]
  simp

theorem completeTimeline_timeline (A : List BillRecord) (lo n : Nat) :
    completeTimeline ((List.range' lo (n + 1)).map (mkRow A))
      = (List.range' lo (n + 1)).map (mkRow A) := by
  rw [completeTimeline_eq _ (timeline_ne_nil A lo n), minIdx_timeline, maxIdx_timeline,
    show lo + n - lo + 1 = n + 1 by omega]
  exact List.map_congr_left (fun i hi => mkRow_timeline A lo (n + 1) i hi)

theorem aggregate_timeline (A : List BillRecord) (lo n : Nat) :
    aggregateRecords ((List.range' lo n).map (mkRow A))
      = (List.range' lo n).map (mkRow A) :=
  aggregate_eq_self _ (timeline_keys_nodup A lo n) (timeline_keys_sorted A lo n)

/-- C6: the cross-document aggregation followed by timeline completion is
idempotent — running the two steps again on their own completed output
changes nothing: no new MISSING rows and no value changes. -/
theorem C6_pipeline_idempotent (l : List BillRecord) (hne : l ≠ [])
    (_hv : validMonths l) : pipelineOut (pipelineOut l) = pipelineOut l := by
  unfold pipelineOut
  rw [completeTimeline_eq (aggregateRecords l) (aggregate_ne_nil l hne)]
  rw [aggregate_timeline, completeTimeline_timeline]

/-- C6 witness: idempotence at the concrete example aggregate (January and
April 2023, so the completed output carries two synthetic MISSING rows),
plus the concrete fixed-point check. -/
theorem C6_witness :
    (exAgg ≠ [] ∧ validMonths exAgg)
  ∧ pipelineOut (pipelineOut exAgg) = pipelineOut exAgg :=
  ⟨⟨by decide, by unfold validMonths; decide⟩,
   C6_pipeline_idempotent exAgg (by decide) (by unfold validMonths; decide)⟩

end TNB
